import Mathlib

/-!
Verification of the GRACE-Web-Tool v2 backend orchestration core.

Each Python function under scrutiny is shallow-embedded as a Lean
definition translated from the modules in `api_v2`.  Machine floats are
modelled over `ℚ`: finite values add exactly, and the IEEE special
values `inf`, `-inf`, `nan` are tracked explicitly wherever the control
flow of the source depends on them.  Stateful code is embedded as
explicit state passing, and code that raises is embedded with `Except`.
-/

/-! ## Claim C1 — `roast_config.validate_recipe` -/

/-- An IEEE-style float value: a finite rational or a special value.
Finite arithmetic is modelled exactly over `ℚ`. -/
inductive XFloat
  | fin (q : ℚ)
  | inf
  | negInf
  | nan
deriving DecidableEq

/-- A Python runtime value, as far as `validate_recipe` inspects one. -/
inductive PyVal
  | pyInt (n : ℤ)
  | pyFloat (x : XFloat)
  | pyStr (s : String)
deriving DecidableEq

/-- The check `isinstance(c, (int, float))` from `validate_recipe`. -/
def isNumber : PyVal → Bool
  | .pyInt _ => true
  | .pyFloat _ => true
  | .pyStr _ => false

/-- Numeric value of a `PyVal`; meaningful only when `isNumber` holds. -/
def toXFloat : PyVal → XFloat
  | .pyInt n => .fin (n : ℚ)
  | .pyFloat x => x
  | .pyStr _ => .fin 0

/-- IEEE addition on the embedded floats: `nan` propagates and
`inf + (-inf) = nan`; finite values add exactly. -/
def xAdd : XFloat → XFloat → XFloat
  | .nan, _ => .nan
  | _, .nan => .nan
  | .inf, .negInf => .nan
  | .negInf, .inf => .nan
  | .inf, _ => .inf
  | _, .inf => .inf
  | .negInf, _ => .negInf
  | _, .negInf => .negInf
  | .fin a, .fin b => .fin (a + b)

/-- `abs` on embedded floats; `abs(nan) = nan`. -/
def xAbs : XFloat → XFloat
  | .fin q => .fin |q|
  | .inf => .inf
  | .negInf => .inf
  | .nan => .nan

/-- The IEEE comparison `x > b` against a finite bound: any comparison
with `nan` is false. -/
def xGt (x : XFloat) (b : ℚ) : Bool :=
  match x with
  | .fin q => decide (b < q)
  | .inf => true
  | .negInf => false
  | .nan => false

/-- `sum(currents)`: Python `sum` starts from the int `0` and folds left. -/
def sumCurrents (l : List PyVal) : XFloat :=
  l.foldl (fun acc c => xAdd acc (toXFloat c)) (.fin 0)

/-- The slice `recipe[1::2]`: every element at an odd index. -/
def oddElems : List PyVal → List PyVal
  | [] => []
  | [_] => []
  | _ :: b :: rest => b :: oddElems rest

/-- The float literal `1e-9` used as the balance tolerance. -/
def tol9 : ℚ := 1 / 1000000000

/-- `roast_config.validate_recipe`, with `.error` where the source raises
`ValueError`.  The `find?` models the for loop over the currents, which
raises at the first non-numeric entry. -/
def validate_recipe (recipe : List PyVal) : Except String Unit :=
  if recipe.length % 2 ≠ 0 then
    .error ("Recipe must have an even number of elements (electrode, current pairs).")
  else
    match (oddElems recipe).find? (fun c => !(isNumber c)) with
    | some _ => .error ("Recipe currents must be numbers")
    | none =>
      if xGt (xAbs (sumCurrents (oddElems recipe))) tol9 then
        .error ("Recipe currents must sum to 0 mA")
      else
        .ok ()

/-- A finite number, as demanded by the claim text (but not by the code). -/
def isFiniteNumber : PyVal → Bool
  | .pyInt _ => true
  | .pyFloat (.fin _) => true
  | _ => false

/-- The bound exactly as claim C1 words it: the sum is a value whose
absolute value is less than `1e-9`. -/
def claimSumSmall (x : XFloat) : Bool :=
  match x with
  | .fin q => decide (|q| < tol9)
  | _ => false

/-- The acceptance condition stated by claim C1 (from the claim text, for
comparison with the code). -/
def C1ClaimCond (recipe : List PyVal) : Prop :=
  recipe.length % 2 = 0 ∧ (∀ c ∈ oddElems recipe, isFiniteNumber c = true) ∧
    claimSumSmall (sumCurrents (oddElems recipe)) = true

/-- A recipe whose currents are `inf` and `-inf`. -/
def C1badRecipe : List PyVal :=
  [.pyStr ("F3"), .pyFloat .inf, .pyStr ("F4"), .pyFloat .negInf]

/-- C1 counterexample: the recipe `["F3", inf, "F4", -inf]` is accepted by
`validate_recipe` — `isinstance` does not check finiteness, the sum is
`nan`, and `abs(nan) > 1e-9` is false — while the claim requires a
`ValueError` because the currents are not finite. -/
theorem C1_counterexample :
    validate_recipe C1badRecipe = .ok () ∧ ¬ C1ClaimCond C1badRecipe := by
  refine ⟨rfl, ?_⟩
  intro h
  rcases h with ⟨-, hfin, -⟩
  have h2 := hfin (.pyFloat .inf) (by decide)
  simp [isFiniteNumber] at h2

/-- C1 (amended): `validate_recipe` accepts a recipe iff its length is
even, every current is numeric (`int` or `float`; finiteness is not
checked, so infinities and `nan` pass), and the float comparison
`abs(sum(currents)) > 1e-9` does not hold — so a sum of exactly `1e-9`
in absolute value is accepted, as is any `nan` sum; in every other case
it raises `ValueError`. -/
theorem C1_recipe_acceptance (recipe : List PyVal) :
    validate_recipe recipe = .ok () ↔
      (recipe.length % 2 = 0 ∧ (∀ c ∈ oddElems recipe, isNumber c = true) ∧
        xGt (xAbs (sumCurrents (oddElems recipe))) tol9 = false) := by
  unfold validate_recipe
  by_cases h1 : recipe.length % 2 = 0
  · have hne : ¬ (recipe.length % 2 ≠ 0) := by simpa using h1
    rw [if_neg hne]
    rcases hfind : (oddElems recipe).find? (fun c => !(isNumber c)) with _ | c
    · have hall : ∀ c ∈ oddElems recipe, isNumber c = true := by
        intro c hc
        have hnone := List.find?_eq_none.mp hfind c hc
        simpa using hnone
      simp only [hfind]
      by_cases h2 : xGt (xAbs (sumCurrents (oddElems recipe))) tol9 = true
      · rw [if_pos h2]
        constructor
        · intro habs
          simp at habs
        · rintro ⟨-, -, hfalse⟩
          simp [h2] at hfalse
      · rw [if_neg h2]
        simp only [Bool.not_eq_true] at h2
        exact ⟨fun _ => ⟨h1, hall, h2⟩, fun _ => rfl⟩
    · have hcprop := List.find?_some hfind
      have hmem := List.mem_of_find?_eq_some hfind
      simp only [Bool.not_eq_true'] at hcprop
      simp only [hfind]
      constructor
      · intro habs
        simp at habs
      · rintro ⟨-, hall, -⟩
        have hc2 := hall c hmem
        rw [hcprop] at hc2
        exact Bool.noConfusion hc2
  · have hne : recipe.length % 2 ≠ 0 := h1
    rw [if_pos hne]
    constructor
    · intro habs
      simp at habs
    · rintro ⟨h0, -, -⟩
      exact absurd h0 h1

/-! ## Claim C10 — `services/audit.audit_event` -/

/-- Failure behaviour of the sqlite backend, one slot per operation that
`audit_event` performs: `some msg` means that operation raises.  -/
structure DbOracle where
  connectFail : Option String
  insertFail : Option String
  commitFail : Option String
deriving DecidableEq

/-- A log action; `audit_event` in the source performs none. -/
inductive AuditLog
  | errorLog (msg : String)
deriving DecidableEq

/-- `services/audit.audit_event`: connect, execute the INSERT, commit,
close.  The source has no try/except and no logging, so the first
failing operation raises to the caller; `.ok true` means the row was
durably written.  The second component is the list of log calls made
(always empty in the source). -/
def audit_event (db : DbOracle) : Except String Bool × List AuditLog :=
  match db.connectFail with
  | some e => (.error e, [])
  | none =>
    match db.insertFail with
    | some e => (.error e, [])
    | none =>
      match db.commitFail with
      | some e => (.error e, [])
      | none => (.ok true, [])

/-- C10 counterexample: when the INSERT fails (say the disk is full), the
exception propagates to the caller of `audit_event` and no ERROR log is
written — the claim says the failure never propagates and is logged. -/
theorem C10_counterexample :
    (audit_event ⟨none, some ("disk full"), none⟩).1 = .error ("disk full") ∧
      (audit_event ⟨none, some ("disk full"), none⟩).2 = [] :=
  ⟨rfl, rfl⟩

/-- C10 (amended): a failure while writing the audit row propagates to
the calling operation — `audit_event` performs the connect / insert /
commit sequence with no exception handling, fails exactly when one of
those operations fails, and never logs anything. -/
theorem C10_audit_failure_propagates (db : DbOracle) :
    ((∃ e, (audit_event db).1 = .error e) ↔
      (db.connectFail ≠ none ∨ db.insertFail ≠ none ∨ db.commitFail ≠ none)) ∧
      (audit_event db).2 = [] := by
  obtain ⟨c, i, m⟩ := db
  cases c <;> cases i <;> cases m <;> simp [audit_event]

/-! ## Claim C7 — `session.cleanup_old_sessions` -/

/-- One entry of the session root directory, as `iterdir` reports it. -/
structure FsEntry where
  name : String
  isDir : Bool
  mtime : ℚ
deriving DecidableEq

/-- A log line written by `cleanup_old_sessions`. -/
inductive CleanLog
  | cleaned (name : String)
  | failed (name : String) (err : String)
deriving DecidableEq

/-- Observable outcome of `cleanup_old_sessions`: the directories
actually removed from disk, the log lines written, and the returned
count. -/
structure CleanupOut where
  removed : List String
  logs : List CleanLog
  returned : ℕ
deriving DecidableEq

/-- The success-path log message of `cleanup_old_sessions` (line 120 of
`session.py`).  The f-string interpolates `max_age_days`, a name that is
not defined anywhere in the module (the parameter is `max_age_hours`),
so evaluating it raises `NameError`. -/
def cleanupSuccessMessage (_name : String) : Except String String :=
  .error ("name max_age_days is not defined")

/-- The body of the per-directory loop of `cleanup_old_sessions`: skip
non-directories, skip directories at or after the cutoff; otherwise run
the try block — `rmtree`, then the success log line, then
`deleted += 1` — with the except clause logging any failure.  `rmOk`
tells whether `rmtree` itself succeeds for this directory. -/
def cleanupEntry (now maxAgeHours : ℚ) (rmOk : Bool) (d : FsEntry)
    (acc : CleanupOut) : CleanupOut :=
  if !d.isDir then acc
  else if d.mtime < now - maxAgeHours * 3600 then
    if rmOk then
      match cleanupSuccessMessage d.name with
      | .ok msg =>
        { removed := acc.removed ++ [d.name],
          logs := acc.logs ++ [.cleaned msg],
          returned := acc.returned + 1 }
      | .error err =>
        { removed := acc.removed ++ [d.name],
          logs := acc.logs ++ [.failed d.name err],
          returned := acc.returned }
    else
      { removed := acc.removed,
        logs := acc.logs ++ [.failed d.name ("rmtree failed")],
        returned := acc.returned }
  else acc

/-- `session.cleanup_old_sessions(max_age_hours)` over the directory
listing `entries`, with `now = time.time()`. -/
def cleanup_old_sessions (now maxAgeHours : ℚ) (entries : List FsEntry)
    (rmOk : String → Bool) : CleanupOut :=
  entries.foldl (fun acc d => cleanupEntry now maxAgeHours (rmOk d.name) d acc)
    ⟨[], [], 0⟩

/-- C7 failing input: one stale session directory, `rmtree` succeeds.
The directory is removed, but the success log line raises `NameError`
(`max_age_days` is undefined), so the removal is logged as a deletion
failure and the returned count stays `0` — against both the claim and
the docstring "Returns number of sessions deleted". -/
theorem C7_cleanup_count_bug :
    cleanup_old_sessions 100000 24 [⟨("sess1"), true, 0⟩] (fun _ => true) =
      ⟨[("sess1")],
        [.failed ("sess1") ("name max_age_days is not defined")], 0⟩ := by
  norm_num [cleanup_old_sessions, cleanupEntry, cleanupSuccessMessage]

/-! ## Claim C9 — `simnibs_runner.LABEL_MAP` and `prepare_segmentation` -/

/-- The static lookup `LABEL_MAP` from `simnibs_runner.py`, in source
(insertion) order. -/
def LABEL_MAP : List (ℤ × ℤ) :=
  [(0, 0), (1, 1), (2, 2), (3, 3), (4, 4), (5, 4), (6, 5),
   (7, 0), (8, 5), (9, 5), (10, 0), (11, 6)]

/-- Value of one voxel after the remapping loop of
`prepare_segmentation`: the result array starts as
`np.zeros_like(data, dtype=np.uint8)` and each `(src, dst)` pair of
`LABEL_MAP` overwrites the voxels equal to `src`, in insertion order. -/
def remapLabel (v : ℤ) : ℤ :=
  LABEL_MAP.foldl (fun acc p => if v = p.1 then p.2 else acc) 0

/-- The arguments `prepare_segmentation` passes to
`nib.Nifti1Image(remapped, img.affine)` and then to `nib.save`:
the voxel data, the element dtype of the array it was built from, and
the header argument (`none`: no header is passed, so nibabel
regenerates the header dtype from the data instead of inheriting the
source header). -/
structure NiftiWrite where
  values : List ℤ
  dtypeBits : ℕ
  dtypeSigned : Bool
  headerArg : Option Unit
deriving DecidableEq

/-- `simnibs_runner.SimNIBSRunner.prepare_segmentation`, restricted to
what it writes: the remapped voxels as a `uint8` array, saved with the
source affine and no header argument. -/
def prepare_segmentation (data : List ℤ) : NiftiWrite :=
  { values := data.map remapLabel,
    dtypeBits := 8,
    dtypeSigned := false,
    headerArg := none }

/-- Range of the remapping fold: if the initial value and every
destination label lie in `[0, 256)`, so does the result. -/
theorem remapFold_bound (v : ℤ) (l : List (ℤ × ℤ)) (acc : ℤ)
    (hacc : 0 ≤ acc ∧ acc < 256)
    (hl : ∀ p ∈ l, 0 ≤ p.2 ∧ p.2 < 256) :
    0 ≤ l.foldl (fun acc p => if v = p.1 then p.2 else acc) acc ∧
      l.foldl (fun acc p => if v = p.1 then p.2 else acc) acc < 256 := by
  induction l generalizing acc with
  | nil => simpa using hacc
  | cons p rest ih =>
    simp only [List.foldl_cons]
    refine ih _ ?_ (fun q hq => hl q (List.mem_cons_of_mem _ hq))
    by_cases h : v = p.1
    · rw [if_pos h]
      exact hl p (List.mem_cons_self _ _)
    · rw [if_neg h]
      exact hacc

set_option maxHeartbeats 2000000 in
/-- C9: the SimNIBS preparation step remaps every voxel by the static
table — `1↦1 (WM)`, `2↦2 (GM)`, `3↦3 (CSF)`, `4↦4` and `5↦4` (skull),
`6↦5`, `8↦5`, `9↦5` (scalp), `11↦6` (eyes), `7↦0` and `10↦0`
(background) — every remapped value fits in 8-bit unsigned, the array
is written as unsigned 8-bit, and no source header is passed to the
NIfTI constructor, so the header dtype is regenerated from the data. -/
theorem C9_simnibs_remap (data : List ℤ) :
    (prepare_segmentation data).values = data.map remapLabel ∧
    (remapLabel 1 = 1 ∧ remapLabel 2 = 2 ∧ remapLabel 3 = 3 ∧
      remapLabel 4 = 4 ∧ remapLabel 5 = 4 ∧ remapLabel 6 = 5 ∧
      remapLabel 8 = 5 ∧ remapLabel 9 = 5 ∧ remapLabel 11 = 6 ∧
      remapLabel 7 = 0 ∧ remapLabel 10 = 0) ∧
    (∀ v : ℤ, 0 ≤ remapLabel v ∧ remapLabel v < 256) ∧
    (prepare_segmentation data).dtypeBits = 8 ∧
    (prepare_segmentation data).dtypeSigned = false ∧
    (prepare_segmentation data).headerArg = none := by
  refine ⟨rfl, by decide, ?_, rfl, rfl, rfl⟩
  intro v
  exact remapFold_bound v LABEL_MAP 0 (by norm_num) (by decide)

/-! ## Claims C4 and C8 — `runner.ModelRunner` -/

/-- A Python exception as the runner inspects one: whether it is a
`RuntimeError` (CUDA OOM errors are), and its message `str(e)`. -/
structure PyExc where
  isRuntimeError : Bool
  msg : String
deriving DecidableEq

/-- Whether `needle` is a leading segment of `hay`. -/
def listHasPre : List Char → List Char → Bool
  | [], _ => true
  | _ :: _, [] => false
  | a :: as, b :: bs => a == b && listHasPre as bs

/-- Whether `needle` occurs contiguously inside `hay`. -/
def listHasSub (needle : List Char) : List Char → Bool
  | [] => needle.isEmpty
  | b :: bs => listHasPre needle (b :: bs) || listHasSub needle bs

/-- `s.lower()` (ASCII case folding, as the messages at hand use). -/
def strLower (s : String) : String :=
  String.mk (s.toList.map Char.toLower)

/-- The test `"out of memory" in str(e).lower()` from `infer`. -/
def containsOOM (msg : String) : Bool :=
  listHasSub (("out of memory").toList) ((strLower msg).toList)

/-- `batch_sizes = [2, 1]` from `ModelRunner.infer`. -/
def batch_sizes : List ℕ := [2, 1]

/-- Result of one `sliding_window_inference` call (predictions are
abstracted to a tag). -/
inductive AttemptResult
  | ok (preds : ℕ)
  | exc (e : PyExc)
deriving DecidableEq

/-- Observable side effects of the retry loop in `infer`. -/
inductive InferAct
  | tried (sw : ℕ)
  | clearedCache
deriving DecidableEq

/-- The retry condition of `infer`: the caught exception is a
`RuntimeError`, its message contains "out of memory", and the current
tile-batch is above the smallest one (`batch_sizes[-1]`). -/
def oomGuard (e : PyExc) (sw : ℕ) : Bool :=
  e.isRuntimeError && containsOOM e.msg && decide (sw > batch_sizes.getLastD 0)

/-- The `for sw_batch_size in batch_sizes` loop of `ModelRunner.infer`:
break on success, `torch.cuda.empty_cache()` and continue on a
retryable OOM, re-raise otherwise; if the list is exhausted without a
break, raise the "even with smallest batch size" RuntimeError. -/
def inferLoop (attempt : ℕ → AttemptResult) :
    List ℕ → List InferAct → Except PyExc ℕ × List InferAct
  | [], acts =>
    (.error ⟨true, ("Inference failed even with smallest batch size")⟩, acts)
  | sw :: rest, acts =>
    match attempt sw with
    | .ok p => (.ok p, acts ++ [.tried sw])
    | .exc e =>
      if oomGuard e sw then
        inferLoop attempt rest (acts ++ [.tried sw, .clearedCache])
      else
        (.error e, acts ++ [.tried sw])

/-- `ModelRunner.infer`, as a function of the outcome of each
`sliding_window_inference` attempt (indexed by tile-batch size). -/
def infer (attempt : ℕ → AttemptResult) : Except PyExc ℕ × List InferAct :=
  inferLoop attempt batch_sizes []

/-- C4: inference starts with a tile-batch of 2; an OOM `RuntimeError`
at 2 clears the device cache and retries exactly once with tile-batch
1, whose outcome — success or any error, OOM included — is final; a
non-OOM error at tile-batch 2 propagates with no retry. -/
theorem C4_oom_retry (attempt : ℕ → AttemptResult) :
    ((infer attempt).2.head? = some (.tried 2)) ∧
    (∀ p, attempt 2 = .ok p → infer attempt = (.ok p, [.tried 2])) ∧
    (∀ e, attempt 2 = .exc e → (e.isRuntimeError && containsOOM e.msg) = true →
      infer attempt =
        ((match attempt 1 with
          | .ok p => Except.ok p
          | .exc e2 => Except.error e2),
          [.tried 2, .clearedCache, .tried 1])) ∧
    (∀ e, attempt 2 = .exc e → (e.isRuntimeError && containsOOM e.msg) = false →
      infer attempt = (.error e, [.tried 2])) := by
  have hguard2 : ∀ e : PyExc,
      oomGuard e 2 = (e.isRuntimeError && containsOOM e.msg) := by
    intro e
    simp [oomGuard, batch_sizes]
  have hguard1 : ∀ e : PyExc, oomGuard e 1 = false := by
    intro e
    simp [oomGuard, batch_sizes]
  refine ⟨?_, ?_, ?_, ?_⟩
  · rcases h2 : attempt 2 with p | e
    · simp [infer, inferLoop, batch_sizes, h2]
    · by_cases hg : oomGuard e 2 = true
      · rcases h1 : attempt 1 with p1 | e1 <;>
          simp [infer, inferLoop, batch_sizes, h2, hg, h1, hguard1]
      · simp only [Bool.not_eq_true] at hg
        simp [infer, inferLoop, batch_sizes, h2, hg]
  · intro p h2
    simp [infer, inferLoop, batch_sizes, h2]
  · intro e h2 hoom
    have hg : oomGuard e 2 = true := by rw [hguard2]; exact hoom
    rcases h1 : attempt 1 with p1 | e1 <;>
      simp [infer, inferLoop, batch_sizes, h2, hg, h1, hguard1]
  · intro e h2 hoom
    have hg : oomGuard e 2 = false := by rw [hguard2]; exact hoom
    simp [infer, inferLoop, batch_sizes, h2, hg]

/-- The attempt behaviour "OOM at tile-batch 2, success at 1". -/
def oomThenOk : ℕ → AttemptResult := fun sw =>
  if sw = 2 then .exc ⟨true, ("CUDA out of memory. Tried to allocate")⟩
  else .ok 7

/-- Witness for C4: with an OOM at tile-batch 2 the run clears the cache
and succeeds at tile-batch 1; with a non-OOM error it fails at once. -/
theorem C4_oom_retry_witness :
    infer oomThenOk = (.ok 7, [.tried 2, .clearedCache, .tried 1]) ∧
      infer (fun _ => .exc ⟨false, ("boom")⟩) =
        (.error ⟨false, ("boom")⟩, [.tried 2]) := by
  constructor
  · have h := (C4_oom_retry oomThenOk).2.2.1
      ⟨true, ("CUDA out of memory. Tried to allocate")⟩ (by rfl) (by decide)
    simpa [oomThenOk] using h
  · have h := (C4_oom_retry (fun _ => .exc ⟨false, ("boom")⟩)).2.2.2
      ⟨false, ("boom")⟩ (by rfl) (by decide)
    simpa using h

/-- The payload assembled by `ModelRunner._emit`: the `detail` key is
added only when the argument is truthy, i.e. a non-empty string. -/
structure RunnerPayload where
  event : String
  model : String
  progress : ℤ
  gpu : ℕ
  detail : Option String
deriving DecidableEq

/-- `ModelRunner._emit`, as the payload it pushes/logs. -/
def emitPayload (model : String) (gpu : ℕ) (event : String) (progress : ℤ)
    (detail : Option String) : RunnerPayload :=
  { event := event, model := model, progress := progress, gpu := gpu,
    detail := match detail with
      | some s => if s = ("") then none else some s
      | none => none }

/-- Observable actions of `ModelRunner.run`'s exception handler. -/
inductive RunnerAct
  | tracebackPrinted
  | loggedError (msg : String)
  | pushed (p : RunnerPayload)
  | loggedEvent (p : RunnerPayload)
  | progressSet (model : String) (value : ℤ)
deriving DecidableEq

/-- `ModelRunner.run`: the try block (load, preprocess, infer, save) is
abstracted as its outcome `body`; on an exception the handler prints
the traceback, calls `log_error`, calls `_emit("model_error", -1,
detail=str(e))` — which pushes the event, logs it and sets progress —
and re-raises the same exception. -/
def ModelRunner_run (model : String) (gpu : ℕ) (body : Except PyExc String) :
    Except PyExc String × List RunnerAct :=
  match body with
  | .ok out => (.ok out, [])
  | .error e =>
    (.error e,
      [.tracebackPrinted,
       .loggedError (("Model ") ++ model ++ (" crashed: ") ++ e.msg),
       .pushed (emitPayload model gpu ("model_error") (-1) (some e.msg)),
       .loggedEvent (emitPayload model gpu ("model_error") (-1) (some e.msg)),
       .progressSet model (-1)])

/-- C8: when the wrapped step raises, `run` logs the error with the
traceback, emits a `model_error` event with `progress = -1` carrying
the error detail (whenever `str(e)` is non-empty), and re-raises the
same exception; when the step succeeds the result passes through — in
neither case is an exception swallowed. -/
theorem C8_runner_error_policy (model : String) (gpu : ℕ)
    (body : Except PyExc String) :
    ((ModelRunner_run model gpu body).1 = body) ∧
    (∀ e, body = .error e →
      (ModelRunner_run model gpu body).2 =
        [.tracebackPrinted,
         .loggedError (("Model ") ++ model ++ (" crashed: ") ++ e.msg),
         .pushed (emitPayload model gpu ("model_error") (-1) (some e.msg)),
         .loggedEvent (emitPayload model gpu ("model_error") (-1) (some e.msg)),
         .progressSet model (-1)] ∧
      (emitPayload model gpu ("model_error") (-1) (some e.msg)).event =
        ("model_error") ∧
      (emitPayload model gpu ("model_error") (-1) (some e.msg)).progress = -1 ∧
      (e.msg ≠ ("") →
        (emitPayload model gpu ("model_error") (-1) (some e.msg)).detail =
          some e.msg)) ∧
    (∀ out, body = .ok out → (ModelRunner_run model gpu body).2 = []) := by
  refine ⟨?_, ?_, ?_⟩
  · cases body <;> rfl
  · rintro e rfl
    refine ⟨rfl, rfl, rfl, ?_⟩
    intro hne
    simp [emitPayload, hne]
  · rintro out rfl
    rfl

/-- Witness for C8: a failing body with message "CUDA error" is
re-raised after a `model_error` emission carrying that detail. -/
theorem C8_runner_error_policy_witness :
    (ModelRunner_run ("grace-native") 0 (.error ⟨true, ("CUDA error")⟩)).1 =
        .error ⟨true, ("CUDA error")⟩ ∧
      (emitPayload ("grace-native") 0 ("model_error") (-1)
          (some ("CUDA error"))).detail = some ("CUDA error") ∧
      (emitPayload ("grace-native") 0 ("model_error") (-1)
          (some ("CUDA error"))).progress = -1 := by
  have h := C8_runner_error_policy ("grace-native") 0 (.error ⟨true, ("CUDA error")⟩)
  have h2 := h.2.1 ⟨true, ("CUDA error")⟩ rfl
  exact ⟨h.1, h2.2.2.2 (by decide), h2.2.2.1⟩

/-! ## Claim C3 — `preprocess.preprocess_image` normalization stage -/

/-- `np.clip` on one value: `min(max(x, lo), hi)`. -/
def clipQ (x lo hi : ℚ) : ℚ := min (max x lo) hi

/-- The float literal `1e-8`, the epsilon of both denominators. -/
def eps8 : ℚ := 1 / 100000000

/-- Insert a value into a sorted list (ascending). -/
def insertQ (x : ℚ) : List ℚ → List ℚ
  | [] => [x]
  | y :: ys => if x ≤ y then x :: y :: ys else y :: insertQ x ys

/-- Ascending insertion sort, the order `np.percentile` works over. -/
def sortQ : List ℚ → List ℚ
  | [] => []
  | x :: xs => insertQ x (sortQ xs)

/-- `np.percentile(data, q)` with the default linear interpolation:
rank `pos = q (n-1) / 100` over the sorted data, interpolating between
the neighbouring order statistics.  The registry percentiles lie in
`[0, 100]`, so `pos` is a valid nonnegative rank. -/
def percentileQ (data : List ℚ) (q : ℚ) : ℚ :=
  let s := sortQ data
  let pos := q * ((s.length : ℚ) - 1) / 100
  let lo := s.getD (⌊pos⌋).toNat 0
  let hi := s.getD ((⌊pos⌋).toNat + 1) lo
  lo + (hi - lo) * (pos - (⌊pos⌋ : ℚ))

/-- `preprocess.normalize_fixed`: clip to `[a_min, a_max]`, then rescale
by the epsilon-safe denominator. -/
def normalize_fixed (data : List ℚ) (a_min a_max : ℚ) : List ℚ :=
  (data.map (fun x => clipQ x a_min a_max)).map
    (fun x => (x - a_min) / (a_max - a_min + eps8))

/-- `preprocess.normalize_percentile`: clip to the `[lower, upper]`
percentile values, then rescale by the epsilon-safe denominator. -/
def normalize_percentile (data : List ℚ) (lower upper : ℚ) : List ℚ :=
  (data.map (fun x => clipQ x (percentileQ data lower) (percentileQ data upper))).map
    (fun x => (x - percentileQ data lower) /
      (percentileQ data upper - percentileQ data lower + eps8))

/-- `np.max(img_data)` for a nonempty volume. -/
def maxQ : List ℚ → ℚ
  | [] => 0
  | x :: xs => xs.foldl max x

/-- The threshold `COMPLEXITY_THRESHOLD = 10000` from `preprocess.py`. -/
def COMPLEXITY_THRESHOLD : ℚ := 10000

/-- The normalization dispatch of `preprocess_image` (the stage the
claim is about; the spatial transforms that follow are outside it):
`auto` picks percentile / skip / fixed from the intensity maximum and
the model type, and the explicit modes apply their normalizer. -/
def applyNormalization (normalization modelType : String) (data : List ℚ)
    (pLow pHigh aMin aMax : ℚ) : List ℚ :=
  if normalization = ("auto") then
    if maxQ data > COMPLEXITY_THRESHOLD then
      normalize_percentile data pLow pHigh
    else if maxQ data ≤ 255 ∧ modelType = ("grace") then
      data
    else
      normalize_fixed data aMin aMax
  else if normalization = ("percentile") then
    normalize_percentile data pLow pHigh
  else if normalization = ("fixed") then
    normalize_fixed data aMin aMax
  else
    data

/-- C3: under the `auto` policy, a volume with maximum above 10000 is
percentile-normalized (clipped to the `[pLow, pHigh]` percentile values
and rescaled with the `1e-8`-safe denominator); otherwise, a maximum at
or below 255 with model kind `grace` skips normalization entirely; in
every other case fixed normalization clips to `[aMin, aMax]` and
rescales with the `1e-8`-safe denominator. -/
theorem C3_auto_normalization (data : List ℚ) (modelType : String)
    (pLow pHigh aMin aMax : ℚ) :
    (maxQ data > COMPLEXITY_THRESHOLD →
      applyNormalization ("auto") modelType data pLow pHigh aMin aMax =
        data.map (fun x =>
          (clipQ x (percentileQ data pLow) (percentileQ data pHigh) -
              percentileQ data pLow) /
            (percentileQ data pHigh - percentileQ data pLow + eps8))) ∧
    (¬ maxQ data > COMPLEXITY_THRESHOLD → maxQ data ≤ 255 →
      modelType = ("grace") →
      applyNormalization ("auto") modelType data pLow pHigh aMin aMax = data) ∧
    (¬ maxQ data > COMPLEXITY_THRESHOLD →
      ¬ (maxQ data ≤ 255 ∧ modelType = ("grace")) →
      applyNormalization ("auto") modelType data pLow pHigh aMin aMax =
        data.map (fun x => (clipQ x aMin aMax - aMin) / (aMax - aMin + eps8))) := by
  refine ⟨?_, ?_, ?_⟩
  · intro hmax
    rw [applyNormalization, if_pos rfl, if_pos hmax]
    simp [normalize_percentile, List.map_map, Function.comp]
  · intro hmax hle hty
    rw [applyNormalization, if_pos rfl, if_neg hmax, if_pos ⟨hle, hty⟩]
  · intro hmax hnot
    rw [applyNormalization, if_pos rfl, if_neg hmax, if_neg hnot]
    simp [normalize_fixed, List.map_map, Function.comp]

/-- Witness for C3: a single-voxel volume of 20001 hits the percentile
branch (degenerating to 0), a volume of 100 with kind grace is left
unchanged, and the same volume with kind domino is fixed-normalized. -/
theorem C3_auto_normalization_witness :
    applyNormalization ("auto") ("grace") [20001] 20 80 0 255 = [0] ∧
      applyNormalization ("auto") ("grace") [100] 20 80 0 255 = [100] ∧
      applyNormalization ("auto") ("domino") [100] 25 75 0 255 =
        [100 / (255 + eps8)] := by
  refine ⟨?_, ?_, ?_⟩
  · have h := (C3_auto_normalization [20001] ("grace") 20 80 0 255).1
      (by norm_num [maxQ, COMPLEXITY_THRESHOLD])
    rw [h]
    norm_num [percentileQ, sortQ, insertQ, clipQ, eps8]
  · exact (C3_auto_normalization [100] ("grace") 20 80 0 255).2.1
      (by norm_num [maxQ, COMPLEXITY_THRESHOLD])
      (by norm_num [maxQ]) rfl
  · have h := (C3_auto_normalization [100] ("domino") 25 75 0 255).2.2
      (by norm_num [maxQ, COMPLEXITY_THRESHOLD])
      (by simp [maxQ])
    rw [h]
    norm_num [clipQ, eps8]

/-! ## Claim C5 — `sse.sse_stream` -/

/-- The inner event of an envelope, as far as the stream inspects it:
its `event` tag and, for synthesized events, a `ts` field. -/
structure InnerEv where
  tag : String
  ts : Option ℚ
deriving DecidableEq

/-- A signed envelope `{event, sig}` as stored on the Redis list. -/
abbrev Envelope := InnerEv × String

/-- One result of the blocking poll `blpop(queue_key, timeout=1)`,
stamped with the wall-clock time at which it returned. -/
inductive Poll
  | timedOut (now : ℚ)
  | gotEvent (env : Envelope) (now : ℚ)

/-- The hard-coded terminal tag set of `sse_stream`. -/
def terminal_tags : List String := [("job_complete"), ("job_failed")]

/-- The synthesized `{"event": "heartbeat", "ts": now}` event. -/
def heartbeatEv (now : ℚ) : InnerEv := ⟨("heartbeat"), some now⟩

/-- The synthesized `{"event": "stream_end", "ts": now}` event. -/
def streamEndEv (now : ℚ) : InnerEv := ⟨("stream_end"), some now⟩

/-- The `timeout=1` argument of the `blpop` call in `sse_stream`. -/
def blpopTimeoutSeconds : ℕ := 1

/-- Wall-clock stamp of a poll result. -/
def pollTime : Poll → ℚ
  | .timedOut n => n
  | .gotEvent _ n => n

/-- One iteration of the `while True` loop of `sse_stream`: returns the
updated `last_event_time`, the envelopes yielded, and whether the
emitted event's tag was terminal (breaking the loop). -/
def sseStep (sign : InnerEv → String) (last : ℚ) :
    Poll → ℚ × List Envelope × Bool
  | .timedOut now =>
    if now - last > 5 then
      (now, [(heartbeatEv now, sign (heartbeatEv now))], false)
    else
      (last, [], false)
  | .gotEvent env now =>
    (now, [env], terminal_tags.contains env.1.tag)

/-- `sse.sse_stream` over a prefix of poll results: iterate `sseStep`;
when an emitted event is terminal, yield the final signed `stream_end`
envelope and stop (remaining polls never happen). -/
def sse_stream (sign : InnerEv → String) : ℚ → List Poll → List Envelope
  | _, [] => []
  | last, p :: ps =>
    let r := sseStep sign last p
    if r.2.2 then
      r.2.1 ++ [(streamEndEv (pollTime p), sign (streamEndEv (pollTime p)))]
    else
      r.2.1 ++ sse_stream sign r.1 ps

/-- C5: on a poll timeout nothing is emitted unless more than five
seconds have passed since the last emission, in which case one signed
heartbeat is emitted and the quiet timer resets; a received event is
emitted and resets the quiet timer; an event with tag in
`{job_complete, job_failed}` is immediately followed by one final
signed `stream_end` envelope and the stream terminates; the blocking
poll timeout is one second. -/
theorem C5_sse_stream_behaviour (sign : InnerEv → String) (last now : ℚ)
    (env : Envelope) (ps : List Poll) :
    (now - last ≤ 5 →
      sse_stream sign last (.timedOut now :: ps) = sse_stream sign last ps) ∧
    (now - last > 5 →
      sse_stream sign last (.timedOut now :: ps) =
        (heartbeatEv now, sign (heartbeatEv now)) :: sse_stream sign now ps) ∧
    (terminal_tags.contains env.1.tag = false →
      sse_stream sign last (.gotEvent env now :: ps) =
        env :: sse_stream sign now ps) ∧
    (terminal_tags.contains env.1.tag = true →
      sse_stream sign last (.gotEvent env now :: ps) =
        [env, (streamEndEv now, sign (streamEndEv now))]) ∧
    blpopTimeoutSeconds = 1 := by
  have hcons : ∀ (l : ℚ) (p : Poll) (rest : List Poll),
      sse_stream sign l (p :: rest) =
        (if (sseStep sign l p).2.2 then
          (sseStep sign l p).2.1 ++
            [(streamEndEv (pollTime p), sign (streamEndEv (pollTime p)))]
        else
          (sseStep sign l p).2.1 ++ sse_stream sign (sseStep sign l p).1 rest) :=
    fun _ _ _ => rfl
  refine ⟨?_, ?_, ?_, ?_, rfl⟩
  · intro hle
    have hn : ¬ (now - last > 5) := not_lt.mpr hle
    have e1 : sseStep sign last (.timedOut now) = (last, [], false) := by
      simp [sseStep, hn]
    rw [hcons, e1]
    simp
  · intro hgt
    have e1 : sseStep sign last (.timedOut now) =
        (now, [(heartbeatEv now, sign (heartbeatEv now))], false) := by
      simp [sseStep, hgt]
    rw [hcons, e1]
    simp
  · intro hterm
    have hmem : env.1.tag ∉ terminal_tags := by simpa using hterm
    have e1 : sseStep sign last (.gotEvent env now) = (now, [env], false) := by
      simp [sseStep, hmem]
    rw [hcons, e1]
    simp [pollTime]
  · intro hterm
    have hmem : env.1.tag ∈ terminal_tags := by simpa using hterm
    have e1 : sseStep sign last (.gotEvent env now) = (now, [env], true) := by
      simp [sseStep, hmem]
    rw [hcons, e1]
    simp [pollTime]

/-- Witness for C5: a quiet gap of 10 s produces a heartbeat, a gap of
3 s produces nothing, and a `job_complete` event is followed by
`stream_end` with the rest of the polls ignored. -/
theorem C5_sse_stream_behaviour_witness :
    sse_stream (fun _ => ("S")) 0 [Poll.timedOut 10] =
        [(heartbeatEv 10, ("S"))] ∧
      sse_stream (fun _ => ("S")) 0 [Poll.timedOut 3] = [] ∧
      sse_stream (fun _ => ("S")) 0
          [Poll.gotEvent (⟨("job_complete"), none⟩, ("sg")) 7,
           Poll.timedOut 100] =
        [(⟨("job_complete"), none⟩, ("sg")), (streamEndEv 7, ("S"))] := by
  refine ⟨?_, ?_, ?_⟩
  · have h := (C5_sse_stream_behaviour (fun _ => ("S")) 0 10
      (⟨("x"), none⟩, ("y")) []).2.1 (by norm_num)
    simpa [sse_stream] using h
  · have h := (C5_sse_stream_behaviour (fun _ => ("S")) 0 3
      (⟨("x"), none⟩, ("y")) []).1 (by norm_num)
    simpa [sse_stream] using h
  · have h := (C5_sse_stream_behaviour (fun _ => ("S")) 0 7
      (⟨("job_complete"), none⟩, ("sg")) [Poll.timedOut 100]).2.2.2.1
      (by decide)
    simpa using h

/-! ## Claim C6 — `scheduler.GPUScheduler.run_job` -/

/-- An event published for a job: `job_start`, a per-model event
(pushed from inside the parallel tasks), or one of the two terminal
job events. -/
inductive JobEv
  | jobStart
  | modelEv (model : String) (tag : String)
  | jobComplete
  | jobFailed (summary : String)
deriving DecidableEq

/-- Whether an event is one of the job-terminal events. -/
def isJobTerminal : JobEv → Bool
  | .jobComplete => true
  | .jobFailed _ => true
  | _ => false

/-- The settled result of one `_run_single_model` task:
`(model_name, success, error_msg)`. -/
structure StepResult where
  model : String
  success : Bool
  errMsg : String
deriving DecidableEq

/-- The `errors` list accumulated by the `as_completed` loop of
`run_job`, in settlement order. -/
def collectErrors (results : List StepResult) : List (String × String) :=
  results.foldl
    (fun errs r => if r.success then errs else errs ++ [(r.model, r.errMsg)]) []

/-- The summary `"; ".join(f"{m}: {e}" ...)` of `run_job`. -/
def errorSummary (errors : List (String × String)) : String :=
  String.intercalate ("; ") (errors.map (fun p => p.1 ++ (": ") ++ p.2))

/-- The terminal event `run_job` publishes after the pool has joined:
`job_failed` with the summary when any step failed, else
`job_complete`. -/
def jobTerminalEvent (results : List StepResult) : JobEv :=
  if collectErrors results ≠ [] then
    .jobFailed (errorSummary (collectErrors results))
  else
    .jobComplete

/-- The publish order of `run_job`: `job_start`, then the per-model
events of the parallel tasks (their interleaving `mix` is scheduling
dependent), and — only after every task has settled, since
`as_completed` is exhausted and the executor joined before the final
push — the terminal event. -/
def run_job (results : List StepResult) (mix : List (String × String)) :
    List JobEv :=
  .jobStart :: (mix.map (fun p => JobEv.modelEv p.1 p.2) ++
    [jobTerminalEvent results])

/-- Per-model events are never job-terminal. -/
theorem modelEv_filter_terminal (mix : List (String × String)) :
    (mix.map (fun p => JobEv.modelEv p.1 p.2)).filter isJobTerminal = [] := by
  induction mix with
  | nil => rfl
  | cons p rest ih => simp [isJobTerminal, ih]

/-- The errors list is exactly the failed steps, in settlement order. -/
theorem collectErrors_eq (results : List StepResult) :
    collectErrors results =
      (results.filter (fun r => !r.success)).map
        (fun r => (r.model, r.errMsg)) := by
  suffices h : ∀ acc : List (String × String),
      results.foldl
          (fun errs r =>
            if r.success then errs else errs ++ [(r.model, r.errMsg)]) acc =
        acc ++ (results.filter (fun r => !r.success)).map
          (fun r => (r.model, r.errMsg)) by
    simpa [collectErrors] using h []
  induction results with
  | nil => intro acc; simp
  | cons r rest ih =>
    intro acc
    by_cases hs : r.success
    · simp [hs, ih]
    · simp [hs, ih]

/-- C6: `run_job` publishes exactly one terminal event; it comes last —
strictly after `job_start` and after every per-model event, hence after
the per-model terminal events the settled tasks pushed; it is
`job_failed` carrying the summary built from exactly the failed models
(in settlement order) when any step failed, and `job_complete` when
none failed. -/
theorem C6_job_terminal (results : List StepResult)
    (mix : List (String × String)) :
    ((run_job results mix).filter isJobTerminal).length = 1 ∧
    (run_job results mix).getLast? = some (jobTerminalEvent results) ∧
    (collectErrors results ≠ [] →
      jobTerminalEvent results =
        .jobFailed (errorSummary (collectErrors results))) ∧
    (collectErrors results = [] → jobTerminalEvent results = .jobComplete) ∧
    collectErrors results =
      (results.filter (fun r => !r.success)).map
        (fun r => (r.model, r.errMsg)) := by
  refine ⟨?_, ?_, ?_, ?_, collectErrors_eq results⟩
  · have hterm : isJobTerminal (jobTerminalEvent results) = true := by
      unfold jobTerminalEvent
      by_cases h : collectErrors results = []
      · rw [if_neg (by simpa using h)]
        rfl
      · rw [if_pos h]
        rfl
    have hstart : isJobTerminal JobEv.jobStart = false := rfl
    simp [run_job, List.filter_append, modelEv_filter_terminal,
      List.filter_cons, hterm, hstart]
  · show (JobEv.jobStart :: (mix.map (fun p => JobEv.modelEv p.1 p.2) ++
      [jobTerminalEvent results])).getLast? = _
    rw [← List.cons_append, List.getLast?_concat]
  · intro h
    unfold jobTerminalEvent
    rw [if_pos h]
  · intro h
    unfold jobTerminalEvent
    rw [if_neg (by simpa using h)]

/-- The settled results "m1 failed with boom, m2 succeeded". -/
def C6failResults : List StepResult :=
  [⟨("m1"), false, ("boom")⟩, ⟨("m2"), true, ("")⟩]

/-- Witness for C6: one failed step yields `job_failed` with the
summary naming it, an all-success job yields `job_complete`, and the
published trace holds exactly one terminal event. -/
theorem C6_job_terminal_witness :
    jobTerminalEvent C6failResults = .jobFailed ("m1: boom") ∧
      jobTerminalEvent [⟨("m2"), true, ("")⟩] = .jobComplete ∧
      ((run_job C6failResults
          [(("m1"), ("model_error")), (("m2"), ("model_complete"))]).filter
        isJobTerminal).length = 1 := by
  refine ⟨?_, ?_, ?_⟩
  · have h := (C6_job_terminal C6failResults []).2.2.1 (by decide)
    rw [h]
    decide
  · exact (C6_job_terminal [⟨("m2"), true, ("")⟩] []).2.2.2.1 (by decide)
  · exact (C6_job_terminal C6failResults
      [(("m1"), ("model_error")), (("m2"), ("model_complete"))]).1


/-! ## Claim C2 — `scheduler.GPUScheduler` slot accounting -/

/-- The owner marker `"<session_id>:<model>"` of a locked slot. -/
abbrev Owner := String × String

/-- The `gpu_locks` hash: `none` is the string "free", `some o` an owner
marker.  A hash maps each slot id to one value, so a slot never carries
two owner markers at once by construction; the temporal theorems below
show the acquire/release discipline keeps a granted slot from being
granted again before its release, through any interleaving of atomic
steps. -/
abbrev Slots := ℕ → Option Owner

/-- The scan of `acquire_gpu` over `range(num_gpus)`: the first slot
recorded free that also passes the live free-memory probe `memOk`
(`_gpu_free_memory_mib(gpu_id) >= min_free_mib`). -/
def findSlot (slots : Slots) (memOk : ℕ → Bool) : List ℕ → Option ℕ
  | [] => none
  | g :: gs =>
    if (slots g).isNone && memOk g then some g else findSlot slots memOk gs

/-- `GPUScheduler.acquire_gpu`: under `self._gpu_lock`, scan for a free
slot with enough memory and, in the same critical section, write the
owner marker to the slot just observed free.  The mutex makes the whole
read-check-write one atomic step of the transition system below. -/
def acquire_gpu (n : ℕ) (slots : Slots) (memOk : ℕ → Bool) (owner : Owner) :
    Option ℕ × Slots :=
  match findSlot slots memOk (List.range n) with
  | some g => (some g, fun x => if x = g then some owner else slots x)
  | none => (none, slots)

/-- `GPUScheduler.release_gpu`: under the mutex, set the slot to free. -/
def release_gpu (slots : Slots) (g : ℕ) : Slots :=
  fun x => if x = g then none else slots x

/-- One atomic command against the scheduler (one critical section). -/
inductive SchedCmd
  | acq (memOk : ℕ → Bool) (owner : Owner)
  | rel (g : ℕ)

/-- The observable event of one atomic command. -/
inductive SchedEv
  | acqOk (g : ℕ) (owner : Owner)
  | acqNone (owner : Owner)
  | relEv (g : ℕ)
deriving DecidableEq

/-- Execute one atomic command: an acquire attempt records the granted
slot (or the failure), a release frees the slot. -/
def stepCmd (n : ℕ) (slots : Slots) : SchedCmd → Slots × SchedEv
  | .acq memOk o =>
    match (acquire_gpu n slots memOk o).1 with
    | some g => ((acquire_gpu n slots memOk o).2, .acqOk g o)
    | none => ((acquire_gpu n slots memOk o).2, .acqNone o)
  | .rel g => (release_gpu slots g, .relEv g)

/-- Execute a whole interleaving of atomic commands (any thread
schedule of concurrent steps serialises into such a list, because every
command runs under `_gpu_lock`), collecting the event trace. -/
def runTrace (n : ℕ) (slots : Slots) : List SchedCmd → Slots × List SchedEv
  | [] => (slots, [])
  | c :: cs =>
    let r := stepCmd n slots c
    let r2 := runTrace n r.1 cs
    (r2.1, r.2 :: r2.2)

/-- Unfolding of `stepCmd` on an acquire command. -/
theorem stepCmd_acq_eq (n : ℕ) (slots : Slots) (memOk : ℕ → Bool)
    (o : Owner) :
    stepCmd n slots (.acq memOk o) =
      (match (acquire_gpu n slots memOk o).1 with
       | some g => ((acquire_gpu n slots memOk o).2, SchedEv.acqOk g o)
       | none => ((acquire_gpu n slots memOk o).2, SchedEv.acqNone o)) := rfl

/-- A slot returned by the scan was recorded free. -/
theorem findSlot_free (slots : Slots) (memOk : ℕ → Bool) (l : List ℕ)
    (g : ℕ) (h : findSlot slots memOk l = some g) : slots g = none := by
  induction l with
  | nil => simp [findSlot] at h
  | cons x xs ih =>
    by_cases hc : ((slots x).isNone && memOk x) = true
    · rw [findSlot, if_pos hc] at h
      obtain ⟨hfree, -⟩ := Bool.and_eq_true_iff.mp hc
      cases h
      exact Option.isNone_iff_eq_none.mp hfree
    · rw [findSlot, if_neg hc] at h
      exact ih h

/-- A successful `acquire_gpu` took a slot observed free and wrote the
owner marker to exactly that slot. -/
theorem acquire_gpu_spec (n : ℕ) (slots : Slots) (memOk : ℕ → Bool)
    (owner : Owner) (g : ℕ) (s2 : Slots)
    (h : acquire_gpu n slots memOk owner = (some g, s2)) :
    slots g = none ∧ s2 g = some owner ∧ ∀ x, x ≠ g → s2 x = slots x := by
  unfold acquire_gpu at h
  rcases hf : findSlot slots memOk (List.range n) with _ | g2
  · rw [hf] at h
    simp at h
  · rw [hf] at h
    rw [Prod.mk.injEq] at h
    obtain ⟨hg, hs⟩ := h
    cases hg
    subst hs
    refine ⟨findSlot_free slots memOk (List.range n) g hf, by simp, ?_⟩
    intro x hx
    simp [hx]

/-- Projection form of the success case of `acquire_gpu`. -/
theorem acquire_gpu_fst_spec (n : ℕ) (slots : Slots) (memOk : ℕ → Bool)
    (owner : Owner) (g : ℕ)
    (h : (acquire_gpu n slots memOk owner).1 = some g) :
    slots g = none ∧ (acquire_gpu n slots memOk owner).2 g = some owner := by
  unfold acquire_gpu at h ⊢
  rcases hf : findSlot slots memOk (List.range n) with _ | g2
  · rw [hf] at h
    have h2 : (none : Option ℕ) = some g := h
    exact absurd h2 (by simp)
  · rw [hf] at h
    have h2 : some g2 = some g := h
    have hg : g2 = g := by simpa using h2
    subst hg
    exact ⟨findSlot_free slots memOk (List.range n) g2 hf, by simp⟩

/-- `acquire_gpu` never disturbs a slot that is currently owned. -/
theorem acquire_gpu_preserve (n : ℕ) (slots : Slots) (memOk : ℕ → Bool)
    (owner : Owner) (g : ℕ) (o : Owner) (hown : slots g = some o) :
    (acquire_gpu n slots memOk owner).2 g = some o := by
  unfold acquire_gpu
  rcases hf : findSlot slots memOk (List.range n) with _ | g2
  · exact hown
  · have hfree := findSlot_free slots memOk (List.range n) g2 hf
    by_cases hx : g = g2
    · subst hx
      rw [hown] at hfree
      exact Option.noConfusion hfree
    · show (if g = g2 then some owner else slots g) = some o
      rw [if_neg hx]
      exact hown

/-- A step that emitted `acqOk g o` observed `g` free before writing
the owner, and owns `g` for `o` after. -/
theorem stepCmd_acqOk (n : ℕ) (slots : Slots) (c : SchedCmd)
    (g : ℕ) (o : Owner) (h : (stepCmd n slots c).2 = .acqOk g o) :
    slots g = none ∧ (stepCmd n slots c).1 g = some o := by
  cases c with
  | acq memOk o2 =>
    rw [stepCmd_acq_eq] at h ⊢
    cases hf : (acquire_gpu n slots memOk o2).1 with
    | none =>
      rw [hf] at h
      have h2 : SchedEv.acqNone o2 = SchedEv.acqOk g o := h
      exact absurd h2 (by simp)
    | some g2 =>
      rw [hf] at h
      have h2 : SchedEv.acqOk g2 o2 = SchedEv.acqOk g o := h
      injection h2 with hg ho
      subst hg
      subst ho
      exact acquire_gpu_fst_spec n slots memOk o2 g2 hf
  | rel g2 =>
    have h2 : SchedEv.relEv g2 = SchedEv.acqOk g o := h
    exact absurd h2 (by simp)

/-- A step whose event is not `relEv g` leaves an owned slot `g` owned
by the same owner. -/
theorem stepCmd_preserve (n : ℕ) (slots : Slots) (c : SchedCmd)
    (g : ℕ) (o : Owner) (hown : slots g = some o)
    (hne : (stepCmd n slots c).2 ≠ .relEv g) :
    (stepCmd n slots c).1 g = some o := by
  cases c with
  | acq memOk o2 =>
    have hp := acquire_gpu_preserve n slots memOk o2 g o hown
    rw [stepCmd_acq_eq]
    cases hf : (acquire_gpu n slots memOk o2).1 with
    | none => exact hp
    | some g2 => exact hp
  | rel g2 =>
    have hgg : g2 ≠ g := by
      intro hq
      exact hne (congrArg SchedEv.relEv hq)
    show release_gpu slots g2 g = some o
    unfold release_gpu
    rw [if_neg (fun hq => hgg hq.symm)]
    exact hown

/-- While a slot stays owned, no later step acquires it before it is
released: any `acqOk g` in the remaining trace is preceded by a
`relEv g`. -/
theorem ownedNoAcq (n : ℕ) (g : ℕ) (o : Owner) :
    ∀ (cmds : List SchedCmd) (slots : Slots), slots g = some o →
      ∀ (l2 : List SchedEv) (o2 : Owner) (l3 : List SchedEv),
        (runTrace n slots cmds).2 = l2 ++ .acqOk g o2 :: l3 →
        SchedEv.relEv g ∈ l2 := by
  intro cmds
  induction cmds with
  | nil =>
    intro slots hown l2 o2 l3 h
    rw [show (runTrace n slots []).2 = [] from rfl] at h
    exact absurd h.symm (by simp)
  | cons c cs ih =>
    intro slots hown l2 o2 l3 h
    rw [show (runTrace n slots (c :: cs)).2 =
        (stepCmd n slots c).2 :: (runTrace n (stepCmd n slots c).1 cs).2
      from rfl] at h
    cases l2 with
    | nil =>
      rw [List.nil_append] at h
      obtain ⟨h1, -⟩ := List.cons_eq_cons.mp h
      obtain ⟨hfree, -⟩ := stepCmd_acqOk n slots c g o2 h1
      rw [hown] at hfree
      exact Option.noConfusion hfree
    | cons e l2t =>
      rw [List.cons_append] at h
      obtain ⟨he, hrest⟩ := List.cons_eq_cons.mp h
      by_cases hrel : e = SchedEv.relEv g
      · rw [hrel]
        exact List.mem_cons_self _ _
      · have hpres : (stepCmd n slots c).1 g = some o := by
          apply stepCmd_preserve n slots c g o hown
          rw [he]
          exact hrel
        exact List.mem_cons_of_mem _
          (ih (stepCmd n slots c).1 hpres l2t o2 l3 hrest)

/-- Between two grants of the same slot there is always a release. -/
theorem noDoubleAcquire (n : ℕ) :
    ∀ (cmds : List SchedCmd) (slots : Slots)
      (l1 : List SchedEv) (g : ℕ) (o1 : Owner) (l2 : List SchedEv)
      (o2 : Owner) (l3 : List SchedEv),
      (runTrace n slots cmds).2 =
        l1 ++ .acqOk g o1 :: l2 ++ .acqOk g o2 :: l3 →
      SchedEv.relEv g ∈ l2 := by
  intro cmds
  induction cmds with
  | nil =>
    intro slots l1 g o1 l2 o2 l3 h
    rw [show (runTrace n slots []).2 = [] from rfl] at h
    exact absurd h.symm (by simp)
  | cons c cs ih =>
    intro slots l1 g o1 l2 o2 l3 h
    rw [show (runTrace n slots (c :: cs)).2 =
        (stepCmd n slots c).2 :: (runTrace n (stepCmd n slots c).1 cs).2
      from rfl] at h
    cases l1 with
    | nil =>
      rw [List.nil_append] at h
      obtain ⟨h1, hrest⟩ := List.cons_eq_cons.mp h
      obtain ⟨-, hown⟩ := stepCmd_acqOk n slots c g o1 h1
      exact ownedNoAcq n g o1 cs (stepCmd n slots c).1 hown l2 o2 l3 hrest
    | cons e l1t =>
      rw [List.cons_append] at h
      obtain ⟨-, hrest⟩ := List.cons_eq_cons.mp h
      exact ih (stepCmd n slots c).1 l1t g o1 l2 o2 l3 hrest

/-- The `while gpu_id is None` loop of `_run_single_model`: one acquire
attempt per element of `oracles` (the free-memory probe results of that
round), stopping at the first success.  Returns the granted slot and
new slot map (or `none` if the loop is still waiting when the budget
runs out), plus the acquire events. -/
def acquireLoop (n : ℕ) (slots : Slots) (owner : Owner) :
    List (ℕ → Bool) → Option (ℕ × Slots) × List SchedEv
  | [] => (none, [])
  | memOk :: rest =>
    match (acquire_gpu n slots memOk owner).1 with
    | some g =>
      (some (g, (acquire_gpu n slots memOk owner).2), [SchedEv.acqOk g owner])
    | none =>
      ((acquireLoop n slots owner rest).1,
        SchedEv.acqNone owner :: (acquireLoop n slots owner rest).2)

/-- Unfolding of `acquireLoop` on one attempt. -/
theorem acquireLoop_cons_eq (n : ℕ) (slots : Slots) (owner : Owner)
    (memOk : ℕ → Bool) (rest : List (ℕ → Bool)) :
    acquireLoop n slots owner (memOk :: rest) =
      (match (acquire_gpu n slots memOk owner).1 with
       | some g =>
         (some (g, (acquire_gpu n slots memOk owner).2),
           [SchedEv.acqOk g owner])
       | none =>
         ((acquireLoop n slots owner rest).1,
           SchedEv.acqNone owner :: (acquireLoop n slots owner rest).2)) := rfl

/-- `scheduler._run_single_model`, restricted to its slot accounting:
wait for a slot in the acquire loop; then the `try/except/finally` —
whether `runner.run` returns (`raises = false`, the task reports
success) or raises (`raises = true`, the task reports failure) — always
runs `release_gpu` on the granted slot exactly once, in `finally`. -/
def run_single_model (n : ℕ) (slots : Slots) (owner : Owner)
    (oracles : List (ℕ → Bool)) (raises : Bool) :
    Option (List SchedEv × Slots × Bool) :=
  match (acquireLoop n slots owner oracles).1 with
  | none => none
  | some (g, s2) =>
    some ((acquireLoop n slots owner oracles).2 ++ [SchedEv.relEv g],
      release_gpu s2 g, !raises)

/-- Number of releases of slot `g` in a trace. -/
def relCount (g : ℕ) (evs : List SchedEv) : ℕ := evs.count (.relEv g)

/-- The acquire loop itself never releases anything. -/
theorem acquireLoop_no_rel (n : ℕ) (slots : Slots) (owner : Owner)
    (oracles : List (ℕ → Bool)) (g : ℕ) :
    SchedEv.relEv g ∉ (acquireLoop n slots owner oracles).2 := by
  induction oracles with
  | nil => simp [acquireLoop]
  | cons memOk rest ih =>
    rw [acquireLoop_cons_eq]
    cases hf : (acquire_gpu n slots memOk owner).1 with
    | some g2 =>
      intro hmem
      have h2 : SchedEv.relEv g ∈ [SchedEv.acqOk g2 owner] := hmem
      rcases List.mem_singleton.mp h2 with h3
      exact SchedEv.noConfusion h3
    | none =>
      intro hmem
      have h2 : SchedEv.relEv g ∈
          SchedEv.acqNone owner :: (acquireLoop n slots owner rest).2 := hmem
      rcases List.mem_cons.mp h2 with h3 | h3
      · exact SchedEv.noConfusion h3
      · exact ih h3

/-- When the acquire loop granted slot `g`, the only grant event in its
trace is that of `g` for the requesting owner. -/
theorem acquireLoop_acqOk (n : ℕ) (slots : Slots) (owner : Owner)
    (oracles : List (ℕ → Bool)) (g : ℕ) (s2 : Slots) (g2 : ℕ) (o2 : Owner)
    (hres : (acquireLoop n slots owner oracles).1 = some (g, s2))
    (hmem : SchedEv.acqOk g2 o2 ∈ (acquireLoop n slots owner oracles).2) :
    g2 = g ∧ o2 = owner := by
  induction oracles with
  | nil => simp [acquireLoop] at hres
  | cons memOk rest ih =>
    rw [acquireLoop_cons_eq] at hres hmem
    cases hf : (acquire_gpu n slots memOk owner).1 with
    | some g3 =>
      rw [hf] at hres hmem
      have hres2 :
          some (g3, (acquire_gpu n slots memOk owner).2) = some (g, s2) :=
        hres
      have hg3 : g3 = g := by
        have := congrArg (fun t => Option.map Prod.fst t) hres2
        simpa using this
      have hmem2 : SchedEv.acqOk g2 o2 ∈ [SchedEv.acqOk g3 owner] := hmem
      have heq := List.mem_singleton.mp hmem2
      injection heq with h1 h2
      exact ⟨h1.trans hg3, h2⟩
    | none =>
      rw [hf] at hres hmem
      have hres2 : (acquireLoop n slots owner rest).1 = some (g, s2) := hres
      have hmem2 : SchedEv.acqOk g2 o2 ∈
          SchedEv.acqNone owner :: (acquireLoop n slots owner rest).2 := hmem
      rcases List.mem_cons.mp hmem2 with h3 | h3
      · exact SchedEv.noConfusion h3
      · exact ih hres2 h3

/-- The granted slot of `_run_single_model` is released exactly once —
on the success path and on the exception path alike — and is free in
the final slot map. -/
theorem run_single_model_release (n : ℕ) (slots : Slots) (owner : Owner)
    (oracles : List (ℕ → Bool)) (raises : Bool) (evs : List SchedEv)
    (sf : Slots) (ok : Bool) (g : ℕ) (o : Owner)
    (h : run_single_model n slots owner oracles raises = some (evs, sf, ok))
    (hmem : SchedEv.acqOk g o ∈ evs) :
    relCount g evs = 1 ∧ sf g = none := by
  unfold run_single_model at h
  cases hf : (acquireLoop n slots owner oracles).1 with
  | none =>
    rw [hf] at h
    exact absurd h (by simp)
  | some p =>
    rcases p with ⟨ga, s2⟩
    rw [hf] at h
    have h2 :
        some ((acquireLoop n slots owner oracles).2 ++ [SchedEv.relEv ga],
          release_gpu s2 ga, !raises) = some (evs, sf, ok) := h
    injection h2 with h3
    have hevs :
        (acquireLoop n slots owner oracles).2 ++ [SchedEv.relEv ga] = evs :=
      congrArg (fun t => t.1) h3
    have hsf : release_gpu s2 ga = sf := congrArg (fun t => t.2.1) h3
    rw [← hevs] at hmem
    rw [← hevs, ← hsf]
    rcases List.mem_append.mp hmem with hin | hin
    · obtain ⟨hg, -⟩ := acquireLoop_acqOk n slots owner oracles ga s2 g o hf hin
      subst hg
      constructor
      · rw [relCount, List.count_append]
        have hz :
            (acquireLoop n slots owner oracles).2.count (SchedEv.relEv g) = 0 :=
          List.count_eq_zero.mpr (acquireLoop_no_rel n slots owner oracles g)
        rw [hz]
        simp
      · show release_gpu s2 g g = none
        unfold release_gpu
        simp
    · have heq := List.mem_singleton.mp hin
      exact SchedEv.noConfusion heq

/-- C2: (i) a successful `acquire_gpu` wrote the owner marker only to a
slot it had just observed as free under the scheduler mutex, leaving
every other slot untouched; (ii) through every interleaving of atomic
acquire/release steps, a granted slot is never granted again — to the
same or a distinct `(session_id, model)` pair — before a release of
that slot intervenes, so no slot is simultaneously held by two distinct
pairs; (iii) in `_run_single_model` every acquire that returns a slot
id is followed by exactly one release of that slot, on the success path
and the exception path alike, leaving the slot free. -/
theorem C2_slot_accounting :
    (∀ (n : ℕ) (slots : Slots) (memOk : ℕ → Bool) (owner : Owner)
      (g : ℕ) (s2 : Slots),
      acquire_gpu n slots memOk owner = (some g, s2) →
      slots g = none ∧ s2 g = some owner ∧ ∀ x, x ≠ g → s2 x = slots x) ∧
    (∀ (n : ℕ) (cmds : List SchedCmd) (slots : Slots) (l1 : List SchedEv)
      (g : ℕ) (o1 : Owner) (l2 : List SchedEv) (o2 : Owner)
      (l3 : List SchedEv),
      (runTrace n slots cmds).2 =
        l1 ++ .acqOk g o1 :: l2 ++ .acqOk g o2 :: l3 →
      SchedEv.relEv g ∈ l2) ∧
    (∀ (n : ℕ) (slots : Slots) (owner : Owner) (oracles : List (ℕ → Bool))
      (raises : Bool) (evs : List SchedEv) (sf : Slots) (ok : Bool)
      (g : ℕ) (o : Owner),
      run_single_model n slots owner oracles raises = some (evs, sf, ok) →
      SchedEv.acqOk g o ∈ evs → relCount g evs = 1 ∧ sf g = none) :=
  ⟨acquire_gpu_spec, noDoubleAcquire, run_single_model_release⟩

/-- The all-free slot map. -/
def freeSlots : Slots := fun _ => none

/-- A concrete owner pair. -/
def wOwner : Owner := (("s1"), ("grace-native"))

/-- The slot map after `wOwner` has acquired slot 0. -/
def wSlots1 : Slots := fun x => if x = 0 then some wOwner else none

/-- Witness for C2: on two free slots the scan grants slot 0 to the
requesting owner and touches nothing else; in the serialised trace
acquire-release-acquire of slot 0 the second grant is preceded by the
release; and one `_run_single_model` run that raises still releases its
slot exactly once, leaving it free. -/
theorem C2_slot_accounting_witness :
    (freeSlots 0 = none ∧ wSlots1 0 = some wOwner ∧ wSlots1 1 = freeSlots 1) ∧
      SchedEv.relEv 0 ∈ [SchedEv.relEv 0] ∧
      (relCount 0 [SchedEv.acqOk 0 wOwner, SchedEv.relEv 0] = 1 ∧
        release_gpu wSlots1 0 0 = none) := by
  refine ⟨?_, ?_, ?_⟩
  · have h := C2_slot_accounting.1 2 freeSlots (fun _ => true) wOwner 0 wSlots1
      rfl
    exact ⟨h.1, h.2.1, h.2.2 1 (by decide)⟩
  · exact C2_slot_accounting.2.1 1
      [.acq (fun _ => true) wOwner, .rel 0,
        .acq (fun _ => true) (("s2"), ("domino-native"))]
      freeSlots [] 0 wOwner [SchedEv.relEv 0] (("s2"), ("domino-native")) []
      rfl
  · exact C2_slot_accounting.2.2 1 freeSlots wOwner [fun _ => true] true
      [SchedEv.acqOk 0 wOwner, SchedEv.relEv 0] (release_gpu wSlots1 0) false 0
      wOwner rfl (List.mem_cons_self _ _)
